import Mathlib

set_option allowUnsafeReducibility true

attribute [local semireducible] Rat.mul Rat.inv Rat.add Rat.sub

/-!
Shallow embedding of the backend of the AI-powered compliance auditor
(src/backend/app.py, src/backend/extract.py).

Modelling conventions:
* Python floats are modelled as rationals.  All numeric behaviour covered
  here (threshold comparisons, weighted averages, truncation to int) is
  exact rational arithmetic in the source.
* External effects that the program delegates to libraries (spaCy sentence
  segmentation, spaCy named-entity recognition, the transformer classifier,
  the remote Gemini call, the filesystem) are parameters of the embedding:
  the pipeline receives them as functions, fallible ones returning Except.
* A Python exception is modelled as Except.error carrying str(e).
-/

/-- Python int() truncates toward zero.  All scores handled here are
nonnegative, where truncation agrees with the floor. -/
def pyInt (q : ℚ) : ℤ := if 0 ≤ q then q.floor else -((-q).floor)

/-- Whitespace for Python str.strip (space, tab, newline, carriage return). -/
def isSpaceChar (c : Char) : Bool := c == ' ' || c == '\t' || c == '\n' || c == '\r'

/-- Python str.strip(): drop whitespace from both ends.  Defined over the
character list so that it evaluates by kernel reduction. -/
def pyStrip (s : String) : String :=
  ⟨((s.data.dropWhile isSpaceChar).reverse.dropWhile isSpaceChar).reverse⟩

/-- Python s[:n]. -/
def pyTake (s : String) (n : Nat) : String := ⟨s.data.take n⟩

/-- Lowercasing of one ASCII character (the only case Python str.lower
meets in this program: extensions and the labels PERSON and ORG). -/
def lowerChar : Char → Char
  | 'A' => 'a' | 'B' => 'b' | 'C' => 'c' | 'D' => 'd' | 'E' => 'e' | 'F' => 'f'
  | 'G' => 'g' | 'H' => 'h' | 'I' => 'i' | 'J' => 'j' | 'K' => 'k' | 'L' => 'l'
  | 'M' => 'm' | 'N' => 'n' | 'O' => 'o' | 'P' => 'p' | 'Q' => 'q' | 'R' => 'r'
  | 'S' => 's' | 'T' => 't' | 'U' => 'u' | 'V' => 'v' | 'W' => 'w' | 'X' => 'x'
  | 'Y' => 'y' | 'Z' => 'z' | c => c

/-- Python str.lower(). -/
def pyLower (s : String) : String := ⟨s.data.map lowerChar⟩

/-- Whether pat is an initial segment of l. -/
def startsWithList : List Char → List Char → Bool
  | [], _ => true
  | _ :: _, [] => false
  | a :: as, b :: bs => a == b && startsWithList as bs

/-- Fuel-bounded worker for Python str.replace: replace every
non-overlapping occurrence of pat, scanning left to right.  The fuel is
the length of the input, enough because pat is nonempty at every call
site, so each step consumes at least one character. -/
def replaceFuel (pat rep : List Char) : Nat → List Char → List Char
  | _, [] => []
  | 0, l => l
  | fuel + 1, c :: rest =>
    if startsWithList pat (c :: rest) then
      rep ++ replaceFuel pat rep fuel (rest.drop (pat.length - 1))
    else
      c :: replaceFuel pat rep fuel rest

/-- Python s.replace(pat, rep) for a nonempty pat. -/
def pyReplace (s pat rep : String) : String :=
  ⟨replaceFuel pat.data rep.data s.data.length s.data⟩

/-- Fuel-bounded worker for Python str.split(pat): acc holds the current
piece reversed. -/
def splitFuel (pat : List Char) : Nat → List Char → List Char → List (List Char)
  | _, acc, [] => [acc.reverse]
  | 0, acc, l => [acc.reverse ++ l]
  | fuel + 1, acc, c :: rest =>
    if startsWithList pat (c :: rest) then
      acc.reverse :: splitFuel pat fuel [] (rest.drop (pat.length - 1))
    else
      splitFuel pat fuel (c :: acc) rest

/-- Python s.split(pat) for a nonempty pat: the number of pieces is the
number of occurrences plus one. -/
def pySplitOn (s pat : String) : List String :=
  (splitFuel pat.data s.data.length [] s.data).map (fun l => ⟨l⟩)

/-- Python " ".join(buffer) for a list of strings. -/
def pyJoin : List String → String
  | [] => ""
  | [s] => s
  | s :: rest => s ++ " " ++ pyJoin rest

/-- Python max(list): raises ValueError on an empty list. -/
def pyMax : List ℚ → Except String ℚ
  | [] => Except.error "max() arg is an empty sequence"
  | h :: t => Except.ok (t.foldl max h)

/-- Python sep.join(list). -/
def pyJoinWith (sep : String) : List String → String
  | [] => ""
  | [s] => s
  | s :: rest => s ++ sep ++ pyJoinWith sep rest

/-- Python substring test (pat in s) for a nonempty pattern. -/
def strContains (s pat : String) : Bool := (pySplitOn s pat).length != 1

/-- app.py line 24: ALLOWED_EXTENSIONS. -/
def ALLOWED_EXTENSIONS : List String := ["pdf", "docx", "txt"]

/-- app.py lines 60-61: allowed_file.  rsplit(".", 1)[1] is the substring
after the last dot, guarded by the containment test. -/
def allowed_file (filename : String) : Bool :=
  filename.data.contains '.' &&
    ALLOWED_EXTENSIONS.contains (pyLower ((pySplitOn filename ".").getLastD ""))

/-- app.py lines 63-75: extract_text.  The pdfplumber / plain-file readers
are abstracted into one fallible reader; on any exception the function
logs and returns the empty string. -/
def extract_text (readRaw : String → Except String String) (path : String) : String :=
  match readRaw path with
  | Except.ok t => t
  | Except.error _ => ""

/-- Buffer-accumulation loop of app.py lines 79-86.  The buffer is kept in
sentence order; a flush appends the joined buffer to the clause list. -/
def splitAux : List String → List String → List String
  | buffer, [] => if buffer = [] then [] else [pyJoin buffer]
  | buffer, s :: rest =>
    if 40 < (pyJoin (buffer ++ [s])).length then
      pyJoin (buffer ++ [s]) :: splitAux [] rest
    else
      splitAux (buffer ++ [s]) rest

/-- app.py lines 77-87: split_into_clauses, parameterised by the sentence
list produced by the spaCy model (doc.sents). -/
def split_into_clauses (sents : List String) : List String :=
  ((splitAux [] sents).map pyStrip).filter (fun c => 40 < c.length)

/-- A spaCy named entity: surface text, label, containing sentence (None
when the parse has no sentence boundaries). -/
structure Entity where
  text : String
  label : String
  sent : Option String
deriving DecidableEq

/-- A party record as built by extract_parties. -/
structure Party where
  name : String
  type : String
  context : String
deriving DecidableEq

/-- app.py line 94 entity test: ent.label_ in [PERSON, ORG]. -/
def isPartyEnt (e : Entity) : Bool := e.label == "PERSON" || e.label == "ORG"

/-- app.py lines 95-99: the party dict built from an entity. -/
def mkParty (docText : String) (e : Entity) : Party :=
  { name := e.text
    type := pyLower e.label
    context := match e.sent with
      | some s => pyStrip s
      | none => pyTake docText 50 }

/-- Loop of app.py lines 93-100 (identically src/backend/extract.py lines
17-24): first-seen deduplication by exact entity text. -/
def extractPartiesAux (docText : String) (seen : List String) :
    List Entity → List Party
  | [] => []
  | e :: rest =>
    if isPartyEnt e = true ∧ e.text ∉ seen then
      mkParty docText e :: extractPartiesAux docText (e.text :: seen) rest
    else
      extractPartiesAux docText seen rest

/-- Party extraction over a given entity sequence (the body of the try
block of extract_parties). -/
def parties_of (docText : String) (ents : List Entity) : List Party :=
  extractPartiesAux docText [] ents

/-- app.py lines 89-105: extract_parties.  The spaCy call is a fallible
parameter; on any exception the function logs and returns []. -/
def extract_parties (entsOf : String → Except String (List Entity))
    (text : String) : List Party :=
  match entsOf text with
  | Except.ok ents => parties_of text ents
  | Except.error _ => []

/-- app.py lines 129-135: strip, remove markdown emphasis and heading
marks, strip again. -/
def cleanRec (s : String) : String :=
  pyStrip (pyReplace (pyReplace (pyStrip s) "**" "") "#" "")

/-- One iteration of the loop of generate_local_recommendation (app.py
lines 110-139).  The remote Gemini call, including the candidates/parts
JSON unpacking that may yield the empty string, is the parameter g. -/
def recOf (g : String → Except String String) (p : String) : String :=
  match g p with
  | Except.ok s =>
    if cleanRec s = "" then "No recommendation generated" else cleanRec s
  | Except.error _ => "Error generating recommendation"

/-- app.py lines 107-140: generate_local_recommendation. -/
def generate_local_recommendation (g : String → Except String String)
    (prompts : List String) : List String :=
  prompts.map (recOf g)

/-- app.py lines 142-149: the per-clause prompt (f-string written as
concatenation; \x27 is the ASCII apostrophe). -/
def clausePrompt (contract_type clause : String) : String :=
  "You are a legal expert specializing in contract analysis for India, EU (GDPR), and US (CCPA) jurisdictions. "
    ++ "Review this clause from a " ++ contract_type ++ ": \x27" ++ clause ++ "\x27. "
    ++ "Analyze for compliance, legal risks, and provide a concise, professional recommendation (1-2 sentences, max 50 words). "
    ++ "Do not use markdown, headings, or say \x27No recommendation\x27."

/-- app.py lines 142-149: generate_clause_prompts. -/
def generate_clause_prompts (clauses : List String) (contract_type : String) :
    List String :=
  clauses.map (clausePrompt contract_type)

/-- A clause entry of the analysis result (app.py lines 188-195). -/
structure ClauseResult where
  id : Nat
  type : String
  text : String
  complianceStatus : String
  riskLevel : String
  recommendation : String
deriving DecidableEq

/-- app.py lines 151-159: generate_overall_summary.  Python iterates a set
comprehension for risk_areas; the model fixes first-occurrence order. -/
def generate_overall_summary (clauses : List ClauseResult) : String :=
  let total := clauses.length
  let risky := (clauses.filter (fun c => c.complianceStatus != "compliant")).length
  let risk_areas :=
    ((clauses.filter (fun c => c.riskLevel != "low")).map (fun c => c.type)).dedup
  "Identified " ++ toString total ++ " clauses, " ++ toString risky
    ++ " require review. Key risks: "
    ++ (if risk_areas = [] then "General compliance issues"
        else pyJoinWith ", " (risk_areas.take 3))
    ++ "."

/-- app.py lines 203-207: the overall summary prompt. -/
def overall_summary_prompt (clauses : List ClauseResult) : String :=
  "You are a legal expert specializing in India, EU (GDPR), and US (CCPA). "
    ++ "Provide a short 2 lines recommendation based on "
    ++ generate_overall_summary clauses
    ++ " overall clauses in one recommendation donot put same clause level recommendations in overall recommendation as it is combina and form a 2 line recommendation out of it "
    ++ "Use formal language, avoid markdown."

/-- app.py line 163: strip then replace newlines and tabs by spaces. -/
def normalizeText (t : String) : String :=
  pyReplace (pyReplace (pyStrip t) "\n" " ") "\t" " "

/-- app.py line 184: average probability (0 for an empty vector). -/
def avgConf (probs : List ℚ) : ℚ :=
  if probs = [] then 0 else probs.sum / (probs.length : ℚ)

/-- app.py line 185: guarded maximum probability (0 for an empty vector). -/
def maxProb : List ℚ → ℚ
  | [] => 0
  | h :: t => t.foldl max h

/-- app.py line 186: compliance status from the average probability. -/
def statusOf (probs : List ℚ) : String :=
  if 3 / 4 < avgConf probs then "compliant"
  else if 1 / 2 < avgConf probs then "review_needed"
  else "non_compliant"

/-- app.py line 187: risk level from the maximum probability. -/
def riskOf (probs : List ℚ) : String :=
  if 3 / 4 < maxProb probs then "low"
  else if 1 / 2 < maxProb probs then "medium"
  else "high"

/-- app.py line 183: labels whose probability exceeds 0.5, in label order.
The classifier emits one probability per entry of clause_names, so the
index-wise pairing is a zip. -/
def clauseLabels (names : List String) (probs : List ℚ) : List String :=
  ((names.zip probs).filter (fun np => 1 / 2 < np.2)).map (fun np => np.1)

/-- app.py line 190: labels[0] if labels else Uncategorized. -/
def clauseTypeOf (names : List String) (probs : List ℚ) : String :=
  (clauseLabels names probs).headD "Uncategorized"

/-- app.py lines 177-180: the clause_weights table. -/
def clause_weights : List (String × ℚ) :=
  [("Indemnification", 2), ("Termination", 3 / 2), ("Confidentiality", 6 / 5),
   ("Payment Terms", 1), ("Liability", 1), ("Uncategorized", 1 / 2)]

/-- app.py lines 198 and 200: clause_weights.get(type, 1.0). -/
def weightOf (t : String) : ℚ := (clause_weights.lookup t).getD 1

/-- app.py lines 182-195: the result_clauses list.  recs.getD models
recommendations[i] if i < len(recommendations) else "No recommendation". -/
def result_clauses (names recs : List String) (clauses_text : List String)
    (preds : List (List ℚ)) : List ClauseResult :=
  (clauses_text.zip preds).enum.map (fun itc =>
    { id := itc.1 + 1
      type := clauseTypeOf names itc.2.2
      text := itc.2.1
      complianceStatus := statusOf itc.2.2
      riskLevel := riskOf itc.2.2
      recommendation := recs.getD itc.1 "No recommendation" })

/-- Generator sum of app.py lines 197-199: max(pred) * weight per clause;
max raises on an empty probability vector. -/
def weightedMaxSum : List (ClauseResult × List ℚ) → Except String ℚ
  | [] => Except.ok 0
  | cp :: rest =>
    match pyMax cp.2, weightedMaxSum rest with
    | Except.ok m, Except.ok s => Except.ok (m * weightOf cp.1.type + s)
    | Except.error e, _ => Except.error e
    | _, Except.error e => Except.error e

/-- app.py lines 197-201: the overall compliance score.  The denominator
is at least 1/2 for a nonempty clause list, so the only exception source
is max() on an empty probability vector. -/
def complianceScoreE (cs : List ClauseResult) (preds : List (List ℚ)) :
    Except String ℤ :=
  if cs = [] then Except.ok 0
  else
    match weightedMaxSum (cs.zip preds) with
    | Except.error e => Except.error e
    | Except.ok num =>
      Except.ok (pyInt (num / (cs.map (fun c => weightOf c.type)).sum * 100))

/-- The external effects analyze_clauses depends on: spaCy sentence
segmentation, spaCy entity recognition, the classifier (tokenizer + model
+ sigmoid, one probability per entry of clause_names per clause), the
remote Gemini call, and the imported clause_names label list. -/
structure Env where
  sentSplit : String → List String
  entsOf : String → Except String (List Entity)
  classify : List String → Except String (List (List ℚ))
  gemini : String → Except String String
  clause_names : List String

/-- app.py lines 165-167: segmentation result with whole-text fallback. -/
def clausesTextOf (env : Env) (text : String) : List String :=
  let segmented := split_into_clauses (env.sentSplit text)
  if segmented = [] then [text] else segmented

/-- The analysis record (app.py lines 213-225).  The uploadedAt timestamp
is a wall-clock side effect and is omitted. -/
structure Analysis where
  fileName : Option String
  fileSize : Option Nat
  extractedText : String
  clauses : List ClauseResult
  complianceScore : ℤ
  totalClauses : Nat
  compliantClauses : Nat
  riskyClauses : Nat
  recommendations : String
  parties : List Party
deriving DecidableEq

/-- app.py lines 226-240: the analysis returned from the except block. -/
def errorAnalysis (text : String) : Analysis :=
  { fileName := none
    fileSize := none
    extractedText := text
    clauses := []
    complianceScore := 0
    totalClauses := 0
    compliantClauses := 0
    riskyClauses := 0
    recommendations := "Error during analysis"
    parties := [] }

/-- app.py lines 161-240: analyze_clauses.  Exceptions escaping a step of
the try block (classification, or max() during scoring) produce
errorAnalysis; extract_parties and the Gemini calls catch internally and
never raise. -/
def analyze_clauses (env : Env) (text0 contract_type : String) : Analysis :=
  let text := normalizeText text0
  let parties := extract_parties env.entsOf text
  let clauses_text := clausesTextOf env text
  match env.classify clauses_text with
  | Except.error _ => errorAnalysis text
  | Except.ok predictions =>
    let recommendations :=
      generate_local_recommendation env.gemini
        (generate_clause_prompts clauses_text contract_type)
    let rcs := result_clauses env.clause_names recommendations clauses_text predictions
    match complianceScoreE rcs predictions with
    | Except.error _ => errorAnalysis text
    | Except.ok score =>
      let overall0 :=
        (generate_local_recommendation env.gemini [overall_summary_prompt rcs]).getD 0 ""
      let overall :=
        if overall0 = "" ∨ (pyStrip overall0).length < 10 ∨
            strContains overall0 "No recommendation" = true then
          generate_overall_summary rcs
        else overall0
      { fileName := none
        fileSize := none
        extractedText := text
        clauses := rcs
        complianceScore := score
        totalClauses := rcs.length
        compliantClauses := (rcs.filter (fun c => c.complianceStatus == "compliant")).length
        riskyClauses := (rcs.filter (fun c => c.complianceStatus != "compliant")).length
        recommendations := overall
        parties := parties }

/-- The multipart file part of an upload request. -/
structure UploadedFile where
  filename : String
deriving DecidableEq

/-- An upload request: optional file part, optional contract_type field. -/
structure UploadRequest where
  file : Option UploadedFile
  contract_type : Option String

/-- The filesystem and library effects of the upload endpoint:
secure_filename, makedirs + file.save (folded into save), the raw text
reader behind extract_text, and os.path.getsize. -/
structure UploadEnv where
  env : Env
  secure : String → String
  save : String → Except String Unit
  readFile : String → Except String String
  getsize : String → Except String Nat

/-- A response of the upload endpoint: an analysis payload or an error
body, each with its HTTP status code. -/
inductive UploadResponse where
  | analysis (status : Nat) (a : Analysis)
  | err (status : Nat) (msg : String)
deriving DecidableEq

/-- Status code of a response. -/
def respStatus : UploadResponse → Nat
  | UploadResponse.analysis s _ => s
  | UploadResponse.err s _ => s

/-- app.py line 304: os.path.join(UPLOAD_FOLDER, secure_filename(...)). -/
def uploadPath (uenv : UploadEnv) (f : UploadedFile) : String :=
  "Uploads/" ++ uenv.secure f.filename

/-- app.py lines 293-319: the upload endpoint.  Validation failures return
400; an exception escaping the try block (save or getsize here) returns
500 with str(e); otherwise 200 with the analysis. -/
def upload_file (uenv : UploadEnv) (req : UploadRequest) : UploadResponse :=
  match req.file with
  | none => UploadResponse.err 400 "No file part"
  | some f =>
    if f.filename = "" then UploadResponse.err 400 "No selected file"
    else if allowed_file f.filename then
      match uenv.save (uploadPath uenv f) with
      | Except.error e => UploadResponse.err 500 e
      | Except.ok _ =>
        let text := extract_text uenv.readFile (uploadPath uenv f)
        let analysis :=
          analyze_clauses uenv.env text (req.contract_type.getD "general contract")
        match uenv.getsize (uploadPath uenv f) with
        | Except.error e => UploadResponse.err 500 e
        | Except.ok size =>
          UploadResponse.analysis 200
            { analysis with fileName := some (uenv.secure f.filename),
                            fileSize := some size }
    else UploadResponse.err 400 "File type not allowed"


/-- Concrete environment whose sentence splitter returns nothing. -/
def envFB : Env :=
  { sentSplit := fun _ => []
    entsOf := fun _ => Except.ok []
    classify := fun _ => Except.ok []
    gemini := fun _ => Except.ok ""
    clause_names := [] }

/-- A concrete remote-call stub: the first prompt raises, the second
succeeds with markdown-only text that cleans to the empty string. -/
def gW : String → Except String String :=
  fun p => if p = "a" then Except.error "boom" else Except.ok " ** # "

/-- Witness entities: two identical ORG mentions with different context
sentences, and one PERSON. -/
def entsW : List Entity :=
  [{ text := "Alpha Tech", label := "ORG", sent := some "First mention. " },
   { text := "Alpha Tech", label := "ORG", sent := some "Second mention." },
   { text := "Dana", label := "PERSON", sent := none }]

/-- The per-clause recommendation list built inside analyze_clauses. -/
def recsOf (env : Env) (text ct : String) : List String :=
  generate_local_recommendation env.gemini
    (generate_clause_prompts (clausesTextOf env (normalizeText text)) ct)

/-- The result_clauses list built inside analyze_clauses. -/
def rcsOf (env : Env) (text ct : String) (preds : List (List ℚ)) :
    List ClauseResult :=
  result_clauses env.clause_names (recsOf env text ct)
    (clausesTextOf env (normalizeText text)) preds

/-- The overall recommendation built inside analyze_clauses (app.py lines
203-211), including the short-or-degenerate fallback. -/
def overallOf (env : Env) (rcs : List ClauseResult) : String :=
  let overall0 :=
    (generate_local_recommendation env.gemini [overall_summary_prompt rcs]).getD 0 ""
  if overall0 = "" ∨ (pyStrip overall0).length < 10 ∨
      strContains overall0 "No recommendation" = true then
    generate_overall_summary rcs
  else overall0

/-- Concrete environment for the score-bounds witness: one clause, one
label, probability 9/10. -/
def envW3 : Env :=
  { sentSplit := fun _ => []
    entsOf := fun _ => Except.error "nlp"
    classify := fun _ => Except.ok [[9 / 10]]
    gemini := fun _ => Except.error "offline"
    clause_names := ["Indemnification"] }

/-- Modelled from the claim wording of the spec: type-weight table with
default 1/2 for every clause type outside the table. -/
def claimWeightOf (t : String) : ℚ := (clause_weights.lookup t).getD (1 / 2)

/-- Modelled from the claim wording of the spec: 100 times the weighted
average of per-clause maximum probabilities, truncated, with
claimWeightOf as the type weight. -/
def claimScore (items : List (String × ℚ)) : ℤ :=
  pyInt ((items.map (fun it => it.2 * claimWeightOf it.1)).sum /
    (items.map (fun it => claimWeightOf it.1)).sum * 100)

/-- The amended formula: identical except that the weight table defaults
to 1 (clause_weights.get(type, 1.0)) as the code does. -/
def specWeightedScore (items : List (String × ℚ)) : ℤ :=
  pyInt ((items.map (fun it => it.2 * weightOf it.1)).sum /
    (items.map (fun it => weightOf it.1)).sum * 100)

/-- A 41-character sentence. -/
def sentA : String := "AAAAAAAAAAAAAAAAAAAAAAAAAAAAAAAAAAAAAAAAA"

/-- Another 41-character sentence. -/
def sentB : String := "BBBBBBBBBBBBBBBBBBBBBBBBBBBBBBBBBBBBBBBBB"

/-- Concrete environment producing two clauses, one typed by a label that
is outside the weight table (Governing Law). -/
def envC2 : Env :=
  { sentSplit := fun _ => [sentA, sentB]
    entsOf := fun _ => Except.error "nlp failed"
    classify := fun _ => Except.ok [[9 / 10, 0], [0, 6 / 10]]
    gemini := fun _ => Except.error "offline"
    clause_names := ["Indemnification", "Governing Law"] }

/-- Environment whose classifier raises. -/
def envCX7 : Env :=
  { sentSplit := fun _ => []
    entsOf := fun _ => Except.error "nlp"
    classify := fun _ => Except.error "boom"
    gemini := fun _ => Except.error "offline"
    clause_names := [] }

/-- Upload environment around envCX7 where saving and size probing
succeed. -/
def uenvCX7 : UploadEnv :=
  { env := envCX7
    secure := fun s => s
    save := fun _ => Except.ok ()
    readFile := fun _ => Except.ok "hello"
    getsize := fun _ => Except.ok 5 }

/-- A valid upload request for a.txt. -/
def reqCX7 : UploadRequest :=
  { file := some { filename := "a.txt" }, contract_type := none }


lemma statusOf_cases (probs : List ℚ) :
    (statusOf probs = "compliant" ↔ 3 / 4 < avgConf probs) ∧
    (statusOf probs = "review_needed" ↔ (1 / 2 < avgConf probs ∧ avgConf probs ≤ 3 / 4)) ∧
    (statusOf probs = "non_compliant" ↔ avgConf probs ≤ 1 / 2) := by
  unfold statusOf
  split_ifs with h1 h2
  · exact ⟨⟨fun _ => h1, fun _ => rfl⟩,
      ⟨fun h => absurd h (by decide), fun h => absurd h1 (not_lt.mpr h.2)⟩,
      ⟨fun h => absurd h (by decide),
       fun h => absurd h1 (not_lt.mpr (h.trans (by norm_num)))⟩⟩
  · exact ⟨⟨fun h => absurd h (by decide), fun h => absurd h h1⟩,
      ⟨fun _ => ⟨h2, not_lt.mp h1⟩, fun _ => rfl⟩,
      ⟨fun h => absurd h (by decide), fun h => absurd h2 (not_lt.mpr h)⟩⟩
  · exact ⟨⟨fun h => absurd h (by decide), fun h => absurd h h1⟩,
      ⟨fun h => absurd h (by decide), fun h => absurd h.1 h2⟩,
      ⟨fun _ => not_lt.mp h2, fun _ => rfl⟩⟩

lemma riskOf_cases (probs : List ℚ) :
    (riskOf probs = "low" ↔ 3 / 4 < maxProb probs) ∧
    (riskOf probs = "medium" ↔ (1 / 2 < maxProb probs ∧ maxProb probs ≤ 3 / 4)) ∧
    (riskOf probs = "high" ↔ maxProb probs ≤ 1 / 2) := by
  unfold riskOf
  split_ifs with h1 h2
  · exact ⟨⟨fun _ => h1, fun _ => rfl⟩,
      ⟨fun h => absurd h (by decide), fun h => absurd h1 (not_lt.mpr h.2)⟩,
      ⟨fun h => absurd h (by decide),
       fun h => absurd h1 (not_lt.mpr (h.trans (by norm_num)))⟩⟩
  · exact ⟨⟨fun h => absurd h (by decide), fun h => absurd h h1⟩,
      ⟨fun _ => ⟨h2, not_lt.mp h1⟩, fun _ => rfl⟩,
      ⟨fun h => absurd h (by decide), fun h => absurd h2 (not_lt.mpr h)⟩⟩
  · exact ⟨⟨fun h => absurd h (by decide), fun h => absurd h h1⟩,
      ⟨fun h => absurd h (by decide), fun h => absurd h.1 h2⟩,
      ⟨fun _ => not_lt.mp h2, fun _ => rfl⟩⟩

/-- C1: for every clause probability vector the aggregator assigns exactly
one compliance status, determined by the average of all label
probabilities (above 3/4 compliant, above 1/2 review_needed, else
non_compliant), and exactly one risk level, determined by the maximum
label probability (above 3/4 low, above 1/2 medium, else high). -/
theorem aggregator_status_risk (probs : List ℚ) :
    (statusOf probs = "compliant" ↔ 3 / 4 < avgConf probs) ∧
    (statusOf probs = "review_needed" ↔ (1 / 2 < avgConf probs ∧ avgConf probs ≤ 3 / 4)) ∧
    (statusOf probs = "non_compliant" ↔ avgConf probs ≤ 1 / 2) ∧
    (riskOf probs = "low" ↔ 3 / 4 < maxProb probs) ∧
    (riskOf probs = "medium" ↔ (1 / 2 < maxProb probs ∧ maxProb probs ≤ 3 / 4)) ∧
    (riskOf probs = "high" ↔ maxProb probs ≤ 1 / 2) := by
  obtain ⟨s1, s2, s3⟩ := statusOf_cases probs
  obtain ⟨r1, r2, r3⟩ := riskOf_cases probs
  exact ⟨s1, s2, s3, r1, r2, r3⟩

lemma pyJoin_append_le (p q : List String) :
    (pyJoin p).length ≤ (pyJoin (p ++ q)).length := by
  induction p with
  | nil => simp [pyJoin]
  | cons s p ih =>
    cases p with
    | nil =>
      cases q with
      | nil => simp
      | cons t ts =>
        show (pyJoin [s]).length ≤ (pyJoin (s :: t :: ts)).length
        simp only [pyJoin, String.length_append]
        omega
    | cons s2 p2 =>
      have ih' : (pyJoin (s2 :: p2)).length ≤ (pyJoin ((s2 :: p2) ++ q)).length := ih
      show (pyJoin (s :: s2 :: p2)).length ≤ (pyJoin ((s :: s2 :: p2) ++ q)).length
      have e1 : pyJoin (s :: s2 :: p2) = s ++ " " ++ pyJoin (s2 :: p2) := rfl
      have e2 : (s :: s2 :: p2) ++ q = s :: ((s2 :: p2) ++ q) := rfl
      have e3 : pyJoin (s :: ((s2 :: p2) ++ q)) = s ++ " " ++ pyJoin ((s2 :: p2) ++ q) := rfl
      rw [e2, e1, e3]
      simp only [String.length_append]
      omega

lemma splitAux_chunks (sents : List String) : ∀ buffer : List String,
    (pyJoin buffer).length ≤ 40 →
    ∃ chunks : List (List String),
      chunks.flatten = buffer ++ sents ∧
      (∀ ch ∈ chunks, ch ≠ []) ∧
      (∀ ch ∈ chunks, ∀ p q, p ++ q = ch → q ≠ [] → (pyJoin p).length ≤ 40) ∧
      (chunks = [] ∨ ∃ body lastc, chunks = body ++ [lastc] ∧
        ∀ ch ∈ body, 40 < (pyJoin ch).length) ∧
      splitAux buffer sents = chunks.map pyJoin := by
  induction sents with
  | nil =>
    intro buffer hb
    by_cases hbuf : buffer = []
    · subst hbuf
      exact ⟨[], by simp, by simp, by simp, Or.inl rfl, by simp [splitAux]⟩
    · refine ⟨[buffer], by simp, by simpa using hbuf, ?_,
        Or.inr ⟨[], buffer, by simp, by simp⟩, by simp [splitAux, hbuf]⟩
      intro ch hch p q hpq hq
      simp only [List.mem_singleton] at hch
      subst hch
      calc (pyJoin p).length ≤ (pyJoin (p ++ q)).length := pyJoin_append_le p q
        _ = (pyJoin ch).length := by rw [hpq]
        _ ≤ 40 := hb
  | cons s rest ih =>
    intro buffer hb
    by_cases hflush : 40 < (pyJoin (buffer ++ [s])).length
    · obtain ⟨chunks', hjoin', hne', hpre', hbody', heq'⟩ := ih [] (by simp [pyJoin])
      simp only [List.nil_append] at hjoin'
      refine ⟨(buffer ++ [s]) :: chunks', ?_, ?_, ?_, ?_, ?_⟩
      · simp [hjoin']
      · intro ch hch
        rcases List.mem_cons.mp hch with rfl | hch'
        · simp
        · exact hne' ch hch'
      · intro ch hch p q hpq hq
        rcases List.mem_cons.mp hch with rfl | hch'
        · have hq' := List.dropLast_append_getLast hq
          rw [← hq', ← List.append_assoc] at hpq
          have hpb : p ++ q.dropLast = buffer := (List.append_inj' hpq (by simp)).1
          calc (pyJoin p).length ≤ (pyJoin (p ++ q.dropLast)).length :=
                pyJoin_append_le p q.dropLast
            _ = (pyJoin buffer).length := by rw [hpb]
            _ ≤ 40 := hb
        · exact hpre' ch hch' p q hpq hq
      · right
        rcases hbody' with rfl | ⟨body', lastc', rfl, hb'⟩
        · exact ⟨[], buffer ++ [s], rfl, by simp⟩
        · refine ⟨(buffer ++ [s]) :: body', lastc', rfl, ?_⟩
          intro ch hch
          rcases List.mem_cons.mp hch with rfl | hch'
          · exact hflush
          · exact hb' ch hch'
      · simp [splitAux, hflush, heq']
    · obtain ⟨chunks, h1, h2, h3, h4, h5⟩ := ih (buffer ++ [s]) (not_lt.mp hflush)
      refine ⟨chunks, by simpa using h1, h2, h3, h4, ?_⟩
      simp [splitAux, hflush, h5]

/-- C4: the clause segmenter accumulates sentences into a buffer and
flushes the joined buffer as a clause whenever its length exceeds 40
(every non-final chunk joins to more than 40 characters while each of its
proper prefixes joins to at most 40), flushes any remaining buffer at end
of input, keeps clauses in input sentence order (the chunks concatenate
back to the sentence list), and every returned clause is the stripped
join of a chunk with stripped length strictly greater than 40. -/
theorem split_clauses_spec (sents : List String) :
    (∀ c ∈ split_into_clauses sents, 40 < c.length) ∧
    ∃ chunks : List (List String),
      chunks.flatten = sents ∧
      (∀ ch ∈ chunks, ch ≠ []) ∧
      (∀ ch ∈ chunks, ∀ p q, p ++ q = ch → q ≠ [] → (pyJoin p).length ≤ 40) ∧
      (chunks = [] ∨ ∃ body lastc, chunks = body ++ [lastc] ∧
        ∀ ch ∈ body, 40 < (pyJoin ch).length) ∧
      split_into_clauses sents =
        ((chunks.map pyJoin).map pyStrip).filter (fun c => 40 < c.length) := by
  constructor
  · intro c hc
    unfold split_into_clauses at hc
    exact of_decide_eq_true (List.mem_filter.mp hc).2
  · obtain ⟨chunks, h1, h2, h3, h4, h5⟩ := splitAux_chunks sents [] (by simp [pyJoin])
    exact ⟨chunks, by simpa using h1, h2, h3, h4, by rw [split_into_clauses, h5]⟩

/-- Witness for C4 at a concrete sentence list. -/
theorem split_clauses_spec_witness :
    (∀ c ∈ split_into_clauses ["a sentence.", "another sentence, well past forty."],
      40 < c.length) ∧
    ∃ chunks : List (List String),
      chunks.flatten = ["a sentence.", "another sentence, well past forty."] ∧
      (∀ ch ∈ chunks, ch ≠ []) ∧
      (∀ ch ∈ chunks, ∀ p q, p ++ q = ch → q ≠ [] → (pyJoin p).length ≤ 40) ∧
      (chunks = [] ∨ ∃ body lastc, chunks = body ++ [lastc] ∧
        ∀ ch ∈ body, 40 < (pyJoin ch).length) ∧
      split_into_clauses ["a sentence.", "another sentence, well past forty."] =
        ((chunks.map pyJoin).map pyStrip).filter (fun c => 40 < c.length) :=
  split_clauses_spec ["a sentence.", "another sentence, well past forty."]

/-- C5: when segmentation of the normalized text yields zero clauses, the
pipeline uses the whole normalized text as the single clause, never an
empty clause list (app.py lines 166-167). -/
theorem clauses_fallback (env : Env) (text : String)
    (h : split_into_clauses (env.sentSplit (normalizeText text)) = []) :
    clausesTextOf env (normalizeText text) = [normalizeText text] ∧
    clausesTextOf env (normalizeText text) ≠ [] := by
  unfold clausesTextOf
  rw [h]
  simp

/-- Witness for C5. -/
theorem clauses_fallback_witness :
    split_into_clauses (envFB.sentSplit (normalizeText "hello")) = [] ∧
    clausesTextOf envFB (normalizeText "hello") = [normalizeText "hello"] :=
  ⟨by decide, (clauses_fallback envFB "hello" (by decide)).1⟩

/-- C8: a raising helper degrades locally: extract_text returns the empty
string and extract_parties returns the empty list instead of propagating
the exception. -/
theorem helpers_degrade :
    (∀ (readRaw : String → Except String String) (path e : String),
      readRaw path = Except.error e → extract_text readRaw path = "") ∧
    (∀ (entsOf : String → Except String (List Entity)) (t e : String),
      entsOf t = Except.error e → extract_parties entsOf t = []) := by
  constructor
  · intro readRaw path e h
    unfold extract_text
    rw [h]
  · intro entsOf t e h
    unfold extract_parties
    rw [h]

/-- Witness for C8. -/
theorem helpers_degrade_witness :
    extract_text (fun _ => Except.error "io error") "f.txt" = "" ∧
    extract_parties (fun _ => Except.error "nlp error") "doc" = [] :=
  ⟨helpers_degrade.1 (fun _ => Except.error "io error") "f.txt" "io error" rfl,
   helpers_degrade.2 (fun _ => Except.error "nlp error") "doc" "nlp error" rfl⟩

/-- C9: the recommendation generator returns one entry per prompt, each
entry depending only on that prompt: a raising remote call yields the
error placeholder for its own entry (so the batch is not aborted), and a
successful call whose cleaned text is empty yields the degenerate-output
placeholder. -/
theorem gen_rec_per_prompt (g : String → Except String String)
    (prompts : List String) :
    (generate_local_recommendation g prompts).length = prompts.length ∧
    (∀ i, i < prompts.length →
      (generate_local_recommendation g prompts).getD i "" =
        recOf g (prompts.getD i "")) ∧
    (∀ p e, g p = Except.error e →
      recOf g p = "Error generating recommendation") ∧
    (∀ p s, g p = Except.ok s → cleanRec s = "" →
      recOf g p = "No recommendation generated") := by
  refine ⟨List.length_map _ _, ?_, ?_, ?_⟩
  · intro i hi
    simp [generate_local_recommendation, List.getD_eq_getElem?_getD,
      List.getElem?_map, List.getElem?_eq_getElem hi]
  · intro p e h
    unfold recOf
    rw [h]
  · intro p s hok hcl
    unfold recOf
    rw [hok]
    simp [hcl]

/-- Witness for C9. -/
theorem gen_rec_per_prompt_witness :
    (generate_local_recommendation gW ["a", "b"]).length = 2 ∧
    gW "a" = Except.error "boom" ∧
    recOf gW "a" = "Error generating recommendation" ∧
    gW "b" = Except.ok " ** # " ∧
    cleanRec " ** # " = "" ∧
    recOf gW "b" = "No recommendation generated" :=
  ⟨(gen_rec_per_prompt gW ["a", "b"]).1, rfl,
   (gen_rec_per_prompt gW ["a", "b"]).2.2.1 "a" "boom" rfl, rfl,
   by decide,
   (gen_rec_per_prompt gW ["a", "b"]).2.2.2 "b" " ** # " rfl (by decide)⟩

lemma extractPartiesAux_name_not_seen (d : String) :
    ∀ (ents : List Entity) (seen : List String) (p : Party),
      p ∈ extractPartiesAux d seen ents → p.name ∉ seen := by
  intro ents
  induction ents with
  | nil =>
    intro seen p hp
    simp [extractPartiesAux] at hp
  | cons e rest ih =>
    intro seen p hp
    by_cases hc : isPartyEnt e = true ∧ e.text ∉ seen
    · rw [extractPartiesAux, if_pos hc] at hp
      rcases List.mem_cons.mp hp with rfl | hp'
      · exact hc.2
      · intro hmem
        exact ih (e.text :: seen) p hp' (List.mem_cons_of_mem _ hmem)
    · rw [extractPartiesAux, if_neg hc] at hp
      exact ih seen p hp

lemma extractPartiesAux_names_nodup (d : String) :
    ∀ (ents : List Entity) (seen : List String),
      ((extractPartiesAux d seen ents).map Party.name).Nodup := by
  intro ents
  induction ents with
  | nil =>
    intro seen
    simp [extractPartiesAux]
  | cons e rest ih =>
    intro seen
    by_cases hc : isPartyEnt e = true ∧ e.text ∉ seen
    · rw [extractPartiesAux, if_pos hc]
      refine List.Nodup.cons ?_ (ih (e.text :: seen))
      intro hmem
      obtain ⟨p, hp, hname⟩ := List.mem_map.mp hmem
      have := extractPartiesAux_name_not_seen d rest (e.text :: seen) p hp
      exact this (by rw [hname]; exact List.mem_cons_self _ _)
    · rw [extractPartiesAux, if_neg hc]
      exact ih seen

lemma extractPartiesAux_first_seen (d : String) :
    ∀ (ents : List Entity) (seen : List String) (p : Party),
      p ∈ extractPartiesAux d seen ents →
      ∃ e, (ents.filter (fun e2 => isPartyEnt e2)).find?
            (fun e2 => e2.text == p.name) = some e ∧
        p = mkParty d e ∧ isPartyEnt e = true := by
  intro ents
  induction ents with
  | nil =>
    intro seen p hp
    simp [extractPartiesAux] at hp
  | cons e rest ih =>
    intro seen p hp
    by_cases hpe : isPartyEnt e = true
    · rw [List.filter_cons_of_pos hpe]
      by_cases hseen : e.text ∉ seen
      · rw [extractPartiesAux, if_pos ⟨hpe, hseen⟩] at hp
        rcases List.mem_cons.mp hp with rfl | hp'
        · refine ⟨e, ?_, rfl, hpe⟩
          apply List.find?_cons_of_pos
          simp [mkParty]
        · obtain ⟨e2, hfind, hpe2, hlab⟩ := ih (e.text :: seen) p hp'
          have hname : p.name ∉ e.text :: seen :=
            extractPartiesAux_name_not_seen d rest (e.text :: seen) p hp'
          have hne : (e.text == p.name) = false := by
            apply beq_eq_false_iff_ne.mpr
            intro hcontr
            exact hname (by rw [← hcontr]; exact List.mem_cons_self _ _)
          exact ⟨e2, by rw [List.find?_cons_of_neg _ (by simp [hne]), hfind],
            hpe2, hlab⟩
      · push_neg at hseen
        rw [extractPartiesAux, if_neg (by simp [hseen])] at hp
        obtain ⟨e2, hfind, hpe2, hlab⟩ := ih seen p hp
        have hname : p.name ∉ seen :=
          extractPartiesAux_name_not_seen d rest seen p hp
        have hne : (e.text == p.name) = false := by
          apply beq_eq_false_iff_ne.mpr
          intro hcontr
          exact hname (hcontr ▸ hseen)
        exact ⟨e2, by rw [List.find?_cons_of_neg _ (by simp [hne]), hfind],
          hpe2, hlab⟩
    · rw [List.filter_cons_of_neg (by simpa using hpe)]
      rw [extractPartiesAux, if_neg (by simp [hpe])] at hp
      exact ih seen p hp

/-- C6: party extraction returns only PERSON or ORG entities, entity
strings appear at most once in the output, and each output party is built
from the first occurrence (in document order) of a PERSON or ORG entity
with that surface text, its context being the containing
sentence of that occurrence. -/
theorem extract_parties_dedup (docText : String) (ents : List Entity) :
    (∀ p ∈ parties_of docText ents, p.type = "person" ∨ p.type = "org") ∧
    ((parties_of docText ents).map Party.name).Nodup ∧
    (∀ p ∈ parties_of docText ents, ∃ e,
      (ents.filter (fun e2 => isPartyEnt e2)).find?
        (fun e2 => e2.text == p.name) = some e ∧
      p = mkParty docText e) := by
  refine ⟨?_, extractPartiesAux_names_nodup docText ents [], ?_⟩
  · intro p hp
    obtain ⟨e, _, hpe, hlab⟩ :=
      extractPartiesAux_first_seen docText ents [] p hp
    have hlab' : e.label = "PERSON" ∨ e.label = "ORG" := by
      simpa [isPartyEnt] using hlab
    rcases hlab' with h | h
    · left
      rw [hpe]
      simp only [mkParty]
      rw [h]
      rfl
    · right
      rw [hpe]
      simp only [mkParty]
      rw [h]
      rfl
  · intro p hp
    obtain ⟨e, hfind, hpe, _⟩ :=
      extractPartiesAux_first_seen docText ents [] p hp
    exact ⟨e, hfind, hpe⟩

/-- Witness for C6: only the first Alpha Tech occurrence survives, with
its own sentence as context. -/
theorem extract_parties_dedup_witness :
    (∀ p ∈ parties_of "doc text" entsW, p.type = "person" ∨ p.type = "org") ∧
    ((parties_of "doc text" entsW).map Party.name).Nodup ∧
    (∀ p ∈ parties_of "doc text" entsW, ∃ e,
      (entsW.filter (fun e2 => isPartyEnt e2)).find?
        (fun e2 => e2.text == p.name) = some e ∧
      p = mkParty "doc text" e) :=
  extract_parties_dedup "doc text" entsW

lemma result_clauses_ids (names recs clauses_text : List String)
    (preds : List (List ℚ)) :
    (result_clauses names recs clauses_text preds).map (fun c => c.id) =
      List.range' 1 (result_clauses names recs clauses_text preds).length := by
  unfold result_clauses
  rw [List.map_map, List.length_map]
  have h1 : ((fun c : ClauseResult => c.id) ∘ fun itc : Nat × (String × List ℚ) =>
      ({ id := itc.1 + 1, type := clauseTypeOf names itc.2.2, text := itc.2.1,
         complianceStatus := statusOf itc.2.2, riskLevel := riskOf itc.2.2,
         recommendation := recs.getD itc.1 "No recommendation" } : ClauseResult)) =
      fun itc : Nat × (String × List ℚ) => itc.1 + 1 := rfl
  rw [h1]
  have h2 : ((clauses_text.zip preds).enum.map fun itc => itc.1 + 1) =
      ((clauses_text.zip preds).enum.map Prod.fst).map (fun i => i + 1) := by
    rw [List.map_map]
    rfl
  rw [h2, List.enum_map_fst, List.enum_length, List.range'_eq_map_range]
  exact List.map_congr_left (fun a _ => Nat.add_comm a 1)

lemma filter_status_split (l : List ClauseResult) :
    (l.filter (fun c => c.complianceStatus == "compliant")).length +
      (l.filter (fun c => c.complianceStatus != "compliant")).length = l.length := by
  induction l with
  | nil => rfl
  | cons c rest ih =>
    simp only [List.filter_cons, List.length_cons]
    by_cases h : c.complianceStatus = "compliant"
    · rw [if_pos (by simp [h]), if_neg (by simp [h])]
      simp only [List.length_cons]
      omega
    · rw [if_neg (by simp [h]), if_pos (by simp [h])]
      simp only [List.length_cons]
      omega

lemma analyze_eq_of_classify_error (env : Env) (text ct e : String)
    (h : env.classify (clausesTextOf env (normalizeText text)) = Except.error e) :
    analyze_clauses env text ct = errorAnalysis (normalizeText text) := by
  simp only [analyze_clauses, h]

lemma analyze_eq_of_score_error (env : Env) (text ct : String)
    (preds : List (List Rat)) (e : String)
    (hcl : env.classify (clausesTextOf env (normalizeText text)) = Except.ok preds)
    (hsc : complianceScoreE (rcsOf env text ct preds) preds = Except.error e) :
    analyze_clauses env text ct = errorAnalysis (normalizeText text) := by
  simp only [rcsOf, recsOf] at hsc
  simp only [analyze_clauses, hcl, hsc]

lemma analyze_eq_of_score_ok (env : Env) (text ct : String)
    (preds : List (List Rat)) (score : Int)
    (hcl : env.classify (clausesTextOf env (normalizeText text)) = Except.ok preds)
    (hsc : complianceScoreE (rcsOf env text ct preds) preds = Except.ok score) :
    analyze_clauses env text ct =
      { fileName := none
        fileSize := none
        extractedText := normalizeText text
        clauses := rcsOf env text ct preds
        complianceScore := score
        totalClauses := (rcsOf env text ct preds).length
        compliantClauses := ((rcsOf env text ct preds).filter
          (fun c => c.complianceStatus == "compliant")).length
        riskyClauses := ((rcsOf env text ct preds).filter
          (fun c => c.complianceStatus != "compliant")).length
        recommendations := overallOf env (rcsOf env text ct preds)
        parties := extract_parties env.entsOf (normalizeText text) } := by
  simp only [rcsOf, recsOf] at hsc
  simp only [analyze_clauses, hcl, hsc, rcsOf, recsOf, overallOf]

/-- C10: every analysis result has clause ids that are the consecutive
integers 1, 2, ... in list order, totalClauses equal to the length of the
clauses list, compliantClauses counting exactly the clauses whose status
is compliant, and compliantClauses + riskyClauses = totalClauses. -/
theorem analyze_result_invariants (env : Env) (text ct : String) :
    ((analyze_clauses env text ct).clauses.map (fun c => c.id) =
      List.range' 1 (analyze_clauses env text ct).clauses.length) ∧
    (analyze_clauses env text ct).totalClauses =
      (analyze_clauses env text ct).clauses.length ∧
    (analyze_clauses env text ct).compliantClauses =
      ((analyze_clauses env text ct).clauses.filter
        (fun c => c.complianceStatus == "compliant")).length ∧
    (analyze_clauses env text ct).compliantClauses +
      (analyze_clauses env text ct).riskyClauses =
      (analyze_clauses env text ct).totalClauses := by
  rcases hcl : env.classify (clausesTextOf env (normalizeText text)) with e | preds
  · rw [analyze_eq_of_classify_error env text ct e hcl]
    exact ⟨rfl, rfl, rfl, rfl⟩
  · rcases hsc : complianceScoreE (rcsOf env text ct preds) preds with e | score
    · rw [analyze_eq_of_score_error env text ct preds e hcl hsc]
      exact ⟨rfl, rfl, rfl, rfl⟩
    · rw [analyze_eq_of_score_ok env text ct preds score hcl hsc]
      exact ⟨result_clauses_ids _ _ _ _, rfl, rfl, filter_status_split _⟩

/-- Witness for C10 at a concrete environment. -/
theorem analyze_result_invariants_witness :
    ((analyze_clauses envFB "some text" "general contract").clauses.map (fun c => c.id) =
      List.range' 1 (analyze_clauses envFB "some text" "general contract").clauses.length) ∧
    (analyze_clauses envFB "some text" "general contract").totalClauses =
      (analyze_clauses envFB "some text" "general contract").clauses.length ∧
    (analyze_clauses envFB "some text" "general contract").compliantClauses =
      ((analyze_clauses envFB "some text" "general contract").clauses.filter
        (fun c => c.complianceStatus == "compliant")).length ∧
    (analyze_clauses envFB "some text" "general contract").compliantClauses +
      (analyze_clauses envFB "some text" "general contract").riskyClauses =
      (analyze_clauses envFB "some text" "general contract").totalClauses :=
  analyze_result_invariants envFB "some text" "general contract"

lemma le_foldl_max (a : ℚ) (l : List ℚ) : a ≤ l.foldl max a := by
  induction l generalizing a with
  | nil => exact le_refl a
  | cons x xs ih => exact le_trans (le_max_left a x) (ih (max a x))

lemma foldl_max_le (c : ℚ) (l : List ℚ) : ∀ a : ℚ, a ≤ c → (∀ x ∈ l, x ≤ c) →
    l.foldl max a ≤ c := by
  induction l with
  | nil => intro a ha _; exact ha
  | cons x xs ih =>
    intro a ha hl
    exact ih (max a x) (max_le ha (hl x (List.mem_cons_self x xs)))
      (fun y hy => hl y (List.mem_cons_of_mem x hy))

lemma pyMax_bounds (probs : List ℚ) (m : ℚ) (hm : pyMax probs = Except.ok m)
    (h0 : ∀ p ∈ probs, 0 ≤ p ∧ p ≤ 1) : 0 ≤ m ∧ m ≤ 1 := by
  cases probs with
  | nil => exact absurd hm (by simp [pyMax])
  | cons h t =>
    have hmv : m = t.foldl max h := by
      have : pyMax (h :: t) = Except.ok (t.foldl max h) := rfl
      rw [this] at hm
      exact (Except.ok.inj hm).symm
    subst hmv
    constructor
    · exact le_trans (h0 h (List.mem_cons_self h t)).1 (le_foldl_max h t)
    · exact foldl_max_le 1 t h (h0 h (List.mem_cons_self h t)).2
        (fun x hx => (h0 x (List.mem_cons_of_mem h hx)).2)

lemma half_le_weightOf (t : String) : 1 / 2 ≤ weightOf t := by
  unfold weightOf
  cases hlk : clause_weights.lookup t with
  | none => simp only [Option.getD_none]; norm_num
  | some v =>
    have hmem : (t, v) ∈ clause_weights := by
      obtain ⟨l1, l2, heq, _⟩ := List.lookup_eq_some_iff.mp hlk
      rw [heq]
      exact List.mem_append.mpr (Or.inr (List.mem_cons_self _ _))
    simp only [Option.getD_some]
    simp only [clause_weights, List.mem_cons, List.not_mem_nil, or_false] at hmem
    rcases hmem with h | h | h | h | h | h <;>
        rw [show v = _ from congrArg Prod.snd h] <;>
      norm_num

lemma weightOf_nonneg (t : String) : 0 ≤ weightOf t :=
  le_trans (by norm_num) (half_le_weightOf t)

lemma weightedMaxSum_bounds :
    ∀ (pairs : List (ClauseResult × List ℚ)) (num : ℚ),
      weightedMaxSum pairs = Except.ok num →
      (∀ cp ∈ pairs, ∀ p ∈ cp.2, 0 ≤ p ∧ p ≤ 1) →
      0 ≤ num ∧ num ≤ (pairs.map (fun cp => weightOf cp.1.type)).sum := by
  intro pairs
  induction pairs with
  | nil =>
    intro num h _
    have : num = 0 := by
      have h0 : weightedMaxSum [] = Except.ok (0 : ℚ) := rfl
      rw [h0] at h
      exact (Except.ok.inj h).symm
    subst this
    simp
  | cons cp rest ih =>
    intro num h hb
    rw [weightedMaxSum] at h
    cases hm : pyMax cp.2 with
    | error e => rw [hm] at h; exact absurd h (by simp)
    | ok m =>
      cases hr : weightedMaxSum rest with
      | error e => rw [hm, hr] at h; exact absurd h (by simp)
      | ok s =>
        rw [hm, hr] at h
        have hnum : num = m * weightOf cp.1.type + s := (Except.ok.inj h).symm
        subst hnum
        obtain ⟨hm0, hm1⟩ :=
          pyMax_bounds cp.2 m hm (hb cp (List.mem_cons_self cp rest))
        obtain ⟨hs0, hs1⟩ :=
          ih s hr (fun cp' h' p hp => hb cp' (List.mem_cons_of_mem cp h') p hp)
        have hw0 := weightOf_nonneg cp.1.type
        constructor
        · exact add_nonneg (mul_nonneg hm0 hw0) hs0
        · simp only [List.map_cons, List.sum_cons]
          have hmw : m * weightOf cp.1.type ≤ weightOf cp.1.type := by
            nlinarith
          linarith

lemma weights_sum_nonneg (cs : List ClauseResult) :
    0 ≤ (cs.map (fun c => weightOf c.type)).sum := by
  apply List.sum_nonneg
  intro x hx
  obtain ⟨c, _, rfl⟩ := List.mem_map.mp hx
  exact weightOf_nonneg c.type

lemma zip_weights_le (cs : List ClauseResult) :
    ∀ preds : List (List ℚ),
      ((cs.zip preds).map (fun cp => weightOf cp.1.type)).sum ≤
        (cs.map (fun c => weightOf c.type)).sum := by
  induction cs with
  | nil => intro preds; simp
  | cons c cs ih =>
    intro preds
    cases preds with
    | nil =>
      simp only [List.zip_nil_right, List.map_nil, List.sum_nil]
      exact weights_sum_nonneg (c :: cs)
    | cons pr prs =>
      simp only [List.zip_cons_cons, List.map_cons, List.sum_cons]
      linarith [ih prs]

lemma weights_sum_pos (cs : List ClauseResult) (h : cs ≠ []) :
    0 < (cs.map (fun c => weightOf c.type)).sum := by
  cases cs with
  | nil => exact absurd rfl h
  | cons c cs =>
    simp only [List.map_cons, List.sum_cons]
    have h1 := half_le_weightOf c.type
    have h2 := weights_sum_nonneg cs
    linarith

lemma pyInt_bounds (q : ℚ) (h0 : 0 ≤ q) (h100 : q ≤ 100) :
    0 ≤ pyInt q ∧ pyInt q ≤ 100 := by
  unfold pyInt
  rw [if_pos h0]
  constructor
  · exact Rat.le_floor.mpr (by exact_mod_cast h0)
  · by_contra hc
    push_neg at hc
    have h101 : (101 : ℤ) ≤ q.floor := hc
    have : ((101 : ℤ) : ℚ) ≤ q := Rat.le_floor.mp h101
    have : (101 : ℚ) ≤ q := by exact_mod_cast this
    linarith

lemma complianceScoreE_bounds (cs : List ClauseResult) (preds : List (List ℚ))
    (z : ℤ) (hsc : complianceScoreE cs preds = Except.ok z)
    (hb : ∀ pr ∈ preds, ∀ p ∈ pr, 0 ≤ p ∧ p ≤ 1) : 0 ≤ z ∧ z ≤ 100 := by
  unfold complianceScoreE at hsc
  by_cases hcs : cs = []
  · rw [if_pos hcs] at hsc
    have : z = 0 := (Except.ok.inj hsc).symm
    subst this
    exact ⟨le_refl 0, by norm_num⟩
  · rw [if_neg hcs] at hsc
    cases hw : weightedMaxSum (cs.zip preds) with
    | error e => rw [hw] at hsc; exact absurd hsc (by simp)
    | ok num =>
      rw [hw] at hsc
      have hz : z = pyInt (num / (cs.map (fun c => weightOf c.type)).sum * 100) :=
        (Except.ok.inj hsc).symm
      subst hz
      have hbz : ∀ cp ∈ cs.zip preds, ∀ p ∈ cp.2, 0 ≤ p ∧ p ≤ 1 := by
        intro cp hcp p hp
        exact hb cp.2 (List.of_mem_zip hcp).2 p hp
      obtain ⟨hn0, hn1⟩ := weightedMaxSum_bounds (cs.zip preds) num hw hbz
      have hden := weights_sum_pos cs hcs
      have hle : num ≤ (cs.map (fun c => weightOf c.type)).sum :=
        le_trans hn1 (zip_weights_le cs preds)
      have hq0 : 0 ≤ num / (cs.map (fun c => weightOf c.type)).sum * 100 := by
        positivity
      have hq1 : num / (cs.map (fun c => weightOf c.type)).sum * 100 ≤ 100 := by
        have hd1 : num / (cs.map (fun c => weightOf c.type)).sum ≤ 1 :=
          (div_le_one hden).mpr hle
        linarith
      exact pyInt_bounds _ hq0 hq1

/-- C3: whenever the classifier produces per-label probabilities in
[0, 1], the overall compliance score of an analysis run is an integer in
[0, 100]; on an empty clause list the score computation yields 0. -/
theorem analyze_score_bounds (env : Env) (text ct : String)
    (hp : ∀ preds, env.classify (clausesTextOf env (normalizeText text)) =
      Except.ok preds → ∀ pr ∈ preds, ∀ p ∈ pr, 0 ≤ p ∧ p ≤ 1) :
    (0 ≤ (analyze_clauses env text ct).complianceScore ∧
      (analyze_clauses env text ct).complianceScore ≤ 100) ∧
    (∀ preds : List (List ℚ), complianceScoreE [] preds = Except.ok 0) := by
  refine ⟨?_, fun preds => rfl⟩
  rcases hcl : env.classify (clausesTextOf env (normalizeText text)) with e | preds
  · rw [analyze_eq_of_classify_error env text ct e hcl]
    exact ⟨le_refl 0, show (0 : ℤ) ≤ 100 by norm_num⟩
  · rcases hsc : complianceScoreE (rcsOf env text ct preds) preds with e | score
    · rw [analyze_eq_of_score_error env text ct preds e hcl hsc]
      exact ⟨le_refl 0, show (0 : ℤ) ≤ 100 by norm_num⟩
    · rw [analyze_eq_of_score_ok env text ct preds score hcl hsc]
      exact complianceScoreE_bounds (rcsOf env text ct preds) preds score hsc
        (hp preds hcl)

/-- Witness for C3. -/
theorem analyze_score_bounds_witness :
    (0 ≤ (analyze_clauses envW3 "contract text" "general contract").complianceScore ∧
      (analyze_clauses envW3 "contract text" "general contract").complianceScore ≤ 100) ∧
    (∀ preds : List (List ℚ), complianceScoreE [] preds = Except.ok 0) :=
  analyze_score_bounds envW3 "contract text" "general contract"
    (fun preds h => by
      injection h with h2
      rw [← h2]
      decide)

/-- Counterexample to C2 as stated: on a run with clause types
Indemnification (max 9/10) and Governing Law (max 6/10) the code scores
80 (default weight 1.0 for Governing Law), while the claimed formula with
default weight 0.5 gives 84. -/
theorem score_default_weight_countereg :
    ((analyze_clauses envC2 "x" "general contract").clauses.zip
        [[(9 : ℚ) / 10, 0], [0, 6 / 10]]).map
          (fun cp => (cp.1.type, maxProb cp.2)) =
      [("Indemnification", 9 / 10), ("Governing Law", 6 / 10)] ∧
    (analyze_clauses envC2 "x" "general contract").complianceScore = 80 ∧
    claimScore [("Indemnification", 9 / 10), ("Governing Law", 6 / 10)] = 84 ∧
    (analyze_clauses envC2 "x" "general contract").complianceScore ≠
      claimScore [("Indemnification", 9 / 10), ("Governing Law", 6 / 10)] :=
  ⟨by decide, by decide, by decide, by decide⟩

lemma clausesTextOf_ne_nil (env : Env) (t : String) : clausesTextOf env t ≠ [] := by
  unfold clausesTextOf
  by_cases h : split_into_clauses (env.sentSplit t) = []
  · rw [if_pos h]
    simp
  · rw [if_neg h]
    exact h

lemma rcsOf_length (env : Env) (text ct : String) (preds : List (List ℚ)) :
    (rcsOf env text ct preds).length =
      min (clausesTextOf env (normalizeText text)).length preds.length := by
  unfold rcsOf result_clauses
  rw [List.length_map, List.enum_length, List.length_zip]

lemma rcsOf_ne_nil (env : Env) (text ct : String) (preds : List (List ℚ))
    (hne : preds ≠ []) : rcsOf env text ct preds ≠ [] := by
  intro hc
  have hlen := congrArg List.length hc
  rw [rcsOf_length] at hlen
  have h1 : 0 < (clausesTextOf env (normalizeText text)).length :=
    List.length_pos.mpr (clausesTextOf_ne_nil env (normalizeText text))
  have h2 : 0 < preds.length := List.length_pos.mpr hne
  simp only [List.length_nil] at hlen
  omega

lemma rcsOf_length_le (env : Env) (text ct : String) (preds : List (List ℚ)) :
    (rcsOf env text ct preds).length ≤ preds.length := by
  rw [rcsOf_length]
  exact min_le_right _ _

lemma weightedMaxSum_eq (pairs : List (ClauseResult × List ℚ))
    (h : ∀ cp ∈ pairs, cp.2 ≠ []) :
    weightedMaxSum pairs =
      Except.ok ((pairs.map (fun cp => maxProb cp.2 * weightOf cp.1.type)).sum) := by
  induction pairs with
  | nil => rfl
  | cons cp rest ih =>
    have hcp : cp.2 ≠ [] := h cp (List.mem_cons_self cp rest)
    have hm : pyMax cp.2 = Except.ok (maxProb cp.2) := by
      cases cp2 : cp.2 with
      | nil => exact absurd cp2 hcp
      | cons a t => rfl
    rw [weightedMaxSum, hm, ih (fun cp' h' => h cp' (List.mem_cons_of_mem cp h'))]
    simp [List.map_cons, List.sum_cons]

lemma zip_weights_eq (cs : List ClauseResult) :
    ∀ preds : List (List ℚ), cs.length ≤ preds.length →
      ((cs.zip preds).map (fun cp => weightOf cp.1.type)).sum =
        (cs.map (fun c => weightOf c.type)).sum := by
  induction cs with
  | nil => intro preds _; simp
  | cons c cs ih =>
    intro preds hlen
    cases preds with
    | nil => simp at hlen
    | cons pr prs =>
      simp only [List.zip_cons_cons, List.map_cons, List.sum_cons]
      rw [ih prs (by simpa using hlen)]

/-- C2 (amended): for a run with a nonempty prediction list whose
probability vectors are nonempty, the overall compliance score equals 100
times the sum over clauses of (maximum probability times type-weight)
divided by the sum of type-weights, truncated, where the type-weight
table gives Indemnification 2.0, Termination 1.5, Confidentiality 1.2,
Payment Terms 1.0, Liability 1.0, Uncategorized 0.5, and defaults to 1.0
(not 0.5) for every other clause type. -/
theorem analyze_score_weighted (env : Env) (text ct : String)
    (preds : List (List ℚ))
    (hcl : env.classify (clausesTextOf env (normalizeText text)) = Except.ok preds)
    (hne : preds ≠ []) (hpr : ∀ pr ∈ preds, pr ≠ []) :
    (analyze_clauses env text ct).complianceScore =
      specWeightedScore (((analyze_clauses env text ct).clauses.zip preds).map
        (fun cp => (cp.1.type, maxProb cp.2))) := by
  have hrcs : rcsOf env text ct preds ≠ [] := rcsOf_ne_nil env text ct preds hne
  have hpairs : ∀ cp ∈ (rcsOf env text ct preds).zip preds, cp.2 ≠ [] :=
    fun cp hcp => hpr cp.2 (List.of_mem_zip hcp).2
  have hw := weightedMaxSum_eq ((rcsOf env text ct preds).zip preds) hpairs
  have hsc : complianceScoreE (rcsOf env text ct preds) preds =
      Except.ok (pyInt ((((rcsOf env text ct preds).zip preds).map
        (fun cp => maxProb cp.2 * weightOf cp.1.type)).sum /
        ((rcsOf env text ct preds).map (fun c => weightOf c.type)).sum * 100)) := by
    unfold complianceScoreE
    rw [if_neg hrcs, hw]
  rw [analyze_eq_of_score_ok env text ct preds _ hcl hsc]
  show pyInt _ = specWeightedScore
    (((rcsOf env text ct preds).zip preds).map (fun cp => (cp.1.type, maxProb cp.2)))
  unfold specWeightedScore
  rw [List.map_map, List.map_map]
  have hcomp1 : ((fun it : String × ℚ => it.2 * weightOf it.1) ∘
      fun cp : ClauseResult × List ℚ => (cp.1.type, maxProb cp.2)) =
      fun cp : ClauseResult × List ℚ => maxProb cp.2 * weightOf cp.1.type := rfl
  have hcomp2 : ((fun it : String × ℚ => weightOf it.1) ∘
      fun cp : ClauseResult × List ℚ => (cp.1.type, maxProb cp.2)) =
      fun cp : ClauseResult × List ℚ => weightOf cp.1.type := rfl
  rw [hcomp1, hcomp2,
    zip_weights_eq (rcsOf env text ct preds) preds (rcsOf_length_le env text ct preds)]

/-- Witness for the amended C2 at the concrete two-clause environment. -/
theorem analyze_score_weighted_witness :
    envC2.classify (clausesTextOf envC2 (normalizeText "x")) =
      Except.ok [[(9 : ℚ) / 10, 0], [0, 6 / 10]] ∧
    ([[(9 : ℚ) / 10, 0], [0, 6 / 10]] : List (List ℚ)) ≠ [] ∧
    (∀ pr ∈ ([[(9 : ℚ) / 10, 0], [0, 6 / 10]] : List (List ℚ)), pr ≠ []) ∧
    (analyze_clauses envC2 "x" "general contract").complianceScore =
      specWeightedScore (((analyze_clauses envC2 "x" "general contract").clauses.zip
        [[(9 : ℚ) / 10, 0], [0, 6 / 10]]).map (fun cp => (cp.1.type, maxProb cp.2))) :=
  ⟨rfl, by decide, by decide,
   analyze_score_weighted envC2 "x" "general contract"
     [[9 / 10, 0], [0, 6 / 10]] rfl (by decide) (by decide)⟩

/-- Counterexample to C7 as stated: the classification step raises
(message boom), yet the endpoint responds 200 with the error-analysis
payload, not 500 with the exception message, because analyze_clauses
catches its own exceptions. -/
theorem upload_internal_error_status :
    uenvCX7.env.classify (clausesTextOf uenvCX7.env (normalizeText
      (extract_text uenvCX7.readFile
        (uploadPath uenvCX7 { filename := "a.txt" })))) = Except.error "boom" ∧
    respStatus (upload_file uenvCX7 reqCX7) = 200 ∧
    upload_file uenvCX7 reqCX7 ≠ UploadResponse.err 500 "boom" :=
  ⟨rfl, by decide, by decide⟩

/-- C7 (amended): validation failures (missing file part, empty filename,
disallowed extension) surface as 400; an exception that reaches the
endpoint handler (file save, size probing) surfaces as 500 carrying the
exception message; but an exception inside analyze_clauses (for example a
classification failure) is caught there, and the endpoint returns 200
with the error-analysis payload instead of 500. -/
theorem upload_error_taxonomy (uenv : UploadEnv) (req : UploadRequest) :
    (req.file = none →
      upload_file uenv req = UploadResponse.err 400 "No file part") ∧
    (∀ f, req.file = some f → f.filename = "" →
      upload_file uenv req = UploadResponse.err 400 "No selected file") ∧
    (∀ f, req.file = some f → f.filename ≠ "" → allowed_file f.filename = false →
      upload_file uenv req = UploadResponse.err 400 "File type not allowed") ∧
    (∀ f e, req.file = some f → f.filename ≠ "" → allowed_file f.filename = true →
      uenv.save (uploadPath uenv f) = Except.error e →
      upload_file uenv req = UploadResponse.err 500 e) ∧
    (∀ f e, req.file = some f → f.filename ≠ "" → allowed_file f.filename = true →
      uenv.save (uploadPath uenv f) = Except.ok () →
      uenv.getsize (uploadPath uenv f) = Except.error e →
      upload_file uenv req = UploadResponse.err 500 e) ∧
    (∀ f size e, req.file = some f → f.filename ≠ "" →
      allowed_file f.filename = true →
      uenv.save (uploadPath uenv f) = Except.ok () →
      uenv.getsize (uploadPath uenv f) = Except.ok size →
      uenv.env.classify (clausesTextOf uenv.env (normalizeText
        (extract_text uenv.readFile (uploadPath uenv f)))) = Except.error e →
      upload_file uenv req = UploadResponse.analysis 200
        { errorAnalysis (normalizeText
            (extract_text uenv.readFile (uploadPath uenv f))) with
          fileName := some (uenv.secure f.filename)
          fileSize := some size }) := by
  refine ⟨?_, ?_, ?_, ?_, ?_, ?_⟩
  · intro h
    simp only [upload_file, h]
  · intro f hf hname
    simp only [upload_file, hf, hname, if_true]
  · intro f hf hname hext
    simp only [upload_file, hf, if_neg hname, hext, Bool.false_eq_true, if_false]
  · intro f e hf hname hext hsave
    simp only [upload_file, hf, if_neg hname, hext, if_true, hsave]
  · intro f e hf hname hext hsave hsize
    simp only [upload_file, hf, if_neg hname, hext, if_true, hsave, hsize]
  · intro f size e hf hname hext hsave hsize hcl
    simp only [upload_file, hf, if_neg hname, hext, if_true, hsave, hsize]
    rw [analyze_eq_of_classify_error uenv.env
      (extract_text uenv.readFile (uploadPath uenv f))
      (req.contract_type.getD "general contract") e hcl]

/-- Witness for the amended C7: the missing-file-part branch. -/
theorem upload_error_taxonomy_witness :
    ({ file := none, contract_type := none } : UploadRequest).file = none ∧
    upload_file uenvCX7 { file := none, contract_type := none } =
      UploadResponse.err 400 "No file part" :=
  ⟨rfl, (upload_error_taxonomy uenvCX7 { file := none, contract_type := none }).1 rfl⟩
